import Mathlib

/-!
Verification of the POV fan display core (`pov_display.py` with the
configuration from `config.py`).

The Python source is shallowly embedded: machine integers become `Int`
(Python integers are unbounded), floating-point quantities become `ℚ`
(all the arithmetic of interest is ratios of integers, where `ℚ` and
IEEE doubles agree on every claim checked here), Python `int()`
truncation becomes `py_int`, Python `//` floor division on positive
divisors becomes `Int` division (Euclidean, which agrees with floor
division for positive divisors), and the module-level mutable state of
the pulse handler becomes an explicit `HallState` record threaded
through a transition function.
-/

/- ===== Configuration constants, from config.py ===== -/

def NUM_LEDS : Nat := 72

def NUM_DIVISIONS : Nat := 40

/-- BRIGHTNESS_RATIO in config.py (0.3). -/
def BRIGHTNESS_RATE : ℚ := 3 / 10

def LINES_TO_SHIFT : Int := -15

def LED_UPDATE_TIME_US : Int := 2800

def DEFAULT_RPM : Int := 500

def MIN_RPM : Int := 200

def MAX_RPM : Int := 1500

def TIMING_MARGIN_US : Int := 300

def HALL_DEBOUNCE_US : Int := 5000

def MAX_RPM_CHANGE_PERCENT : ℚ := 40

def RPM_HISTORY_SIZE : Nat := 15

def ROT_PER_FRAME : Int := 4

def LED_IS_GRB : Bool := true

/- ===== Python numeric primitives ===== -/

/-- Python `int(x)`: truncation toward zero of a real quantity,
modelled on `ℚ`.  For a nonnegative argument this is the floor. -/
def py_int (q : ℚ) : Int :=
  if 0 ≤ q then q.num / (q.den : Int) else -((-q).num / ((-q).den : Int))

theorem py_int_eq_floor (q : ℚ) (h : 0 ≤ q) : py_int q = ⌊q⌋ := by
  rw [py_int, if_pos h, Rat.floor_def]

/-- Python `range(a, b)` over integers. -/
def py_range (a b : Int) : List Int :=
  (List.range (b - a).toNat).map (fun k => a + k)

/- ===== Colors ===== -/

/-- The value handed to the rpi_ws281x `Color` constructor: the three
integer channel arguments in the order they are passed (the packed
24-bit word is injective in these three arguments, so the triple is a
faithful model of the packed color). -/
structure PixColor where
  ch1 : Int
  ch2 : Int
  ch3 : Int
deriving DecidableEq, Repr

/-- `make_color(r, g, b)`: applies Python `int()` to each channel and
reorders to GRB when `LED_IS_GRB` is set, exactly as the source does. -/
def make_color (r g b : ℚ) : PixColor :=
  if LED_IS_GRB then ⟨py_int g, py_int r, py_int b⟩ else ⟨py_int r, py_int g, py_int b⟩

/- ===== RotationTracker: check_hall_sensor embedding ===== -/

/-- The module-level mutable state read and written by `check_hall_sensor`
(`pov_display.py`).  `rotation_end_flag` models the threading event
`rotation_end_event`; `sequence_len` models `len(sequence_colors)`. -/
structure HallState where
  last_hall_trigger_time : Int
  last_rotation_micros : Int
  rotation_time_micros : Int
  time_per_line_micros : Int
  current_line : Int
  rotation_count : Int
  valid_rotation_count : Int
  noise_rejected_count : Int
  rpm_history : List ℚ
  current_rpm : ℚ
  stable_rpm : ℚ
  rotation_active : Bool
  rotation_end_flag : Bool
  gif_mode_active : Bool
  sequence_len : Nat
  current_frame_index : Nat
deriving DecidableEq, Repr

/-- `sum(l) / len(l)`, the mean used for outlier rejection. -/
def history_mean (l : List ℚ) : ℚ := l.sum / l.length

/-- The instantaneous RPM of a measured rotation period:
`instant_rpm = 60_000_000 / measured_rotation_time`. -/
def instant_rpm_of (measured : Int) : ℚ := 60000000 / (measured : ℚ)

/-- The smoothed (trimmed-mean) RPM computation of `check_hall_sensor`:
`sorted_rpm = sorted(rpm_history); trimmed = sorted_rpm[1:-1];
stable_rpm = sum(trimmed)/len(trimmed) if trimmed else instant_rpm`
when the history has at least 5 samples, else the plain mean. -/
def compute_stable_rpm (history : List ℚ) (instant : ℚ) : ℚ :=
  if 5 ≤ history.length then
    let trimmed := ((List.insertionSort (· ≤ ·) history).drop 1).dropLast
    if trimmed.isEmpty then instant else trimmed.sum / trimmed.length
  else history.sum / history.length

/-- `min_rotation_time = int(60_000_000 / MAX_RPM)`. -/
def min_rotation_time : Int := py_int (60000000 / (MAX_RPM : ℚ))

/-- `max_rotation_time = int(60_000_000 / MIN_RPM)`. -/
def max_rotation_time : Int := py_int (60000000 / (MIN_RPM : ℚ))

/-- Derivation of `time_per_line_micros` from the smoothed RPM:
`rotation_time_micros = int(60_000_000 / stable_rpm)`,
`time_per_line_micros = rotation_time_micros // NUM_DIVISIONS`,
then clamped below by `LED_UPDATE_TIME_US`. -/
def derive_time_per_line (stable : ℚ) : Int :=
  let rt := py_int (60000000 / stable)
  let tpl := rt / (NUM_DIVISIONS : Int)
  if tpl < LED_UPDATE_TIME_US then LED_UPDATE_TIME_US else tpl

/-- The tail of the rising-edge branch of `check_hall_sensor`
(GIF frame advancement and the position reset), shared by the
valid-reading path and the first-pulse path. -/
def finish_pulse (s : HallState) (t : Int) : HallState :=
  let s1 :=
    if s.gif_mode_active ∧ s.rotation_count % ROT_PER_FRAME = 0 ∧ s.sequence_len ≠ 0 then
      { s with current_frame_index := (s.current_frame_index + 1) % s.sequence_len }
    else s
  { s1 with current_line := 0, rotation_active := true,
            rotation_count := s1.rotation_count + 1, last_rotation_micros := t }

/-- The rising-edge branch of `check_hall_sensor` in `pov_display.py`
for a pulse observed at time `t` (microseconds): debounce, period
validation, outlier rejection, history update, smoothing, and timing
derivation, with the three early-return rejection paths. -/
def check_hall_pulse (s : HallState) (t : Int) : HallState :=
  if t - s.last_hall_trigger_time < HALL_DEBOUNCE_US then
    { s with noise_rejected_count := s.noise_rejected_count + 1 }
  else
    let s1 := { s with last_hall_trigger_time := t, rotation_end_flag := true }
    if 0 < s1.last_rotation_micros then
      let measured := t - s1.last_rotation_micros
      if ¬(min_rotation_time ≤ measured ∧ measured ≤ max_rotation_time) then
        { s1 with noise_rejected_count := s1.noise_rejected_count + 1,
                  current_line := 0, rotation_count := s1.rotation_count + 1,
                  last_rotation_micros := t }
      else
        let instant := instant_rpm_of measured
        if 3 ≤ s1.rpm_history.length ∧
            MAX_RPM_CHANGE_PERCENT <
              |instant - history_mean s1.rpm_history| / history_mean s1.rpm_history * 100 then
          { s1 with noise_rejected_count := s1.noise_rejected_count + 1,
                    current_line := 0, rotation_count := s1.rotation_count + 1,
                    last_rotation_micros := t }
        else
          let hist1 := s1.rpm_history ++ [instant]
          let hist2 := if RPM_HISTORY_SIZE < hist1.length then hist1.drop 1 else hist1
          let stable := compute_stable_rpm hist2 instant
          let s2 := { s1 with rpm_history := hist2,
                              valid_rotation_count := s1.valid_rotation_count + 1,
                              stable_rpm := stable, current_rpm := stable,
                              rotation_time_micros := py_int (60000000 / stable),
                              time_per_line_micros := derive_time_per_line stable }
          finish_pulse s2 t
    else
      finish_pulse s1 t

/-- The module-level initial values of the state fields in
`pov_display.py` before the first pulse. -/
def initial_hall_state : HallState where
  last_hall_trigger_time := 0
  last_rotation_micros := 0
  rotation_time_micros := py_int (60000000 / (DEFAULT_RPM : ℚ))
  time_per_line_micros := py_int (60000000 / (DEFAULT_RPM : ℚ)) / (NUM_DIVISIONS : Int)
  current_line := 0
  rotation_count := 0
  valid_rotation_count := 0
  noise_rejected_count := 0
  rpm_history := []
  current_rpm := (DEFAULT_RPM : ℚ)
  stable_rpm := (DEFAULT_RPM : ℚ)
  rotation_active := false
  rotation_end_flag := false
  gif_mode_active := false
  sequence_len := 0
  current_frame_index := 0

/- ===== LineScheduler: display_current_line timing section ===== -/

/-- The timing tail of `display_current_line` (after the LED push), for
a given measured `remaining = time_per_line_micros - update_time -
TIMING_MARGIN_US`: if `remaining > 0` the loop spin-waits (no index
change); if `remaining < -1000` it computes
`lines_to_skip = int((-remaining) / time_per_line_micros)` and, when
positive, adds it to both `current_line` and `missed_lines_count`;
then `current_line += 1` and the index is reset to `0` once it reaches
`num_divs`.  Returns the new `(current_line, missed_lines_count)`. -/
def advance_line (num_divs : Nat) (time_per_line remaining cur missed : Int) : Int × Int :=
  let step :=
    if 0 < remaining then (cur, missed)
    else if remaining < -1000 then
      let lines_to_skip := py_int ((-remaining : ℚ) / (time_per_line : ℚ))
      if 0 < lines_to_skip then (cur + lines_to_skip, missed + lines_to_skip)
      else (cur, missed)
    else (cur, missed)
  let cur1 := step.1 + 1
  (if (num_divs : Int) ≤ cur1 then 0 else cur1, step.2)

/-- The inline spin-wait of `display_current_line`
(`while get_time_micros() < target_time: pass`), run against a clock
trace `clock` (the reading at the `k`-th loop check) and a flag trace
`flag` (whether `rotation_end_event` is set at the `k`-th check).
Returns the index of the check at which the loop exits; `fuel` bounds
the unrolling.  The loop body is `pass`: the flag trace is never
consulted. -/
def display_spin_wait (fuel : Nat) (clock : Nat → Int) (flag : Nat → Bool)
    (target : Int) (k : Nat) : Nat :=
  match fuel with
  | 0 => k
  | fuel + 1 =>
    if clock k < target then display_spin_wait fuel clock flag target (k + 1) else k

/-- The busy-wait helper `precise_micros_delay`:
`while now < target: if rotation_end_event.is_set(): break` — it
re-checks the flag on every iteration and aborts early when it is set. -/
def precise_delay_wait (fuel : Nat) (clock : Nat → Int) (flag : Nat → Bool)
    (target : Int) (k : Nat) : Nat :=
  match fuel with
  | 0 => k
  | fuel + 1 =>
    if clock k < target then
      if flag k then k else precise_delay_wait fuel clock flag target (k + 1)
    else k

/- ===== AngularColorTable: arrange_colors_for_display ===== -/

/-- One step of a Python loop writing `arr[f i] = v i` under a guard. -/
def set_step (f : Nat → Nat) (v : Nat → PixColor) (g : Nat → Bool)
    (a : List PixColor) (i : Nat) : List PixColor :=
  if g i then a.set (f i) (v i) else a

/-- A Python `for i in range(n)` loop of guarded index assignments. -/
def fill_loop (f : Nat → Nat) (v : Nat → PixColor) (g : Nat → Bool)
    (n : Nat) (arr : List PixColor) : List PixColor :=
  (List.range n).foldl (set_step f v g) arr

/-- One radial sample of a source table: an RGB triple. -/
def scale_sample (s : ℚ × ℚ × ℚ) : PixColor :=
  make_color ((py_int (s.1 * BRIGHTNESS_RATE) : Int) : ℚ)
    ((py_int (s.2.1 * BRIGHTNESS_RATE) : Int) : ℚ)
    ((py_int (s.2.2 * BRIGHTNESS_RATE) : Int) : ℚ)

/-- One output row of `arrange_colors_for_display` for division
`line_iter`: the first strip half is filled from the odd radial samples
of division `line_iter` (outer end inward, position
`num_leds_one_side - i - 1`), the second half from the even radial
samples of the antipodal division
`(line_iter + num_divs // 2) % num_divs` (position
`num_leds_one_side + i`). -/
def arrange_line (slices : List (List (ℚ × ℚ × ℚ))) (line_iter : Nat) : List PixColor :=
  let num_leds_one_side := NUM_LEDS / 2
  let num_divs := slices.length
  let row_a := slices.getD line_iter []
  let row_b := slices.getD ((line_iter + num_divs / 2) % num_divs) []
  let line_array := List.replicate NUM_LEDS (make_color 0 0 0)
  let half_a := fill_loop (fun i => num_leds_one_side - 1 - i)
    (fun i => scale_sample (row_a.getD (i * 2 + 1) (0, 0, 0)))
    (fun i => decide (i * 2 + 1 < row_a.length)) num_leds_one_side line_array
  fill_loop (fun i => num_leds_one_side + i)
    (fun i => scale_sample (row_b.getD (i * 2) (0, 0, 0)))
    (fun i => decide (i * 2 < row_b.length)) num_leds_one_side half_a

/-- `arrange_colors_for_display` of `pov_display.py`. -/
def arrange_colors_for_display (slices : List (List (ℚ × ℚ × ℚ))) : List (List PixColor) :=
  (List.range slices.length).map (arrange_line slices)

/- ===== ModeController: shape generation and content cycling ===== -/

/-- `circle_thickness = max(2, 5 - NUM_DIVISIONS // 30)`. -/
def circle_thickness : Int := max 2 (5 - (NUM_DIVISIONS : Int) / 30)

/-- `generate_circle_data` of `pov_display.py`: a ring of the given
radius and color, identical in every angular division. -/
def generate_circle_data (radius_leds : Nat) (color_rgb : ℚ × ℚ × ℚ) : List (List PixColor) :=
  let center_led := NUM_LEDS / 2
  let pixel := make_color (color_rgb.1 * BRIGHTNESS_RATE)
    (color_rgb.2.1 * BRIGHTNESS_RATE) (color_rgb.2.2 * BRIGHTNESS_RATE)
  let off := make_color 0 0 0
  (List.range NUM_DIVISIONS).map fun _ =>
    let line := List.replicate NUM_LEDS off
    if radius_leds < NUM_LEDS / 2 then
      (py_range (-circle_thickness / 2) (circle_thickness / 2 + 1)).foldl
        (fun ln offset =>
          let p1 : Int := (center_led : Int) - (radius_leds : Int) + offset
          let p2 : Int := (center_led : Int) + (radius_leds : Int) + offset
          let ln1 := if 0 ≤ p1 ∧ p1 < (NUM_LEDS : Int) then ln.set p1.toNat pixel else ln
          if 0 ≤ p2 ∧ p2 < (NUM_LEDS : Int) then ln1.set p2.toNat pixel else ln1)
        line
    else line

/-- The resulting `display_data` of `set_mode_static_image` once an image
load has been attempted: `loaded = load_npy_image(...)` is `none` when
`np.load` raised (missing or corrupt file, the exception is caught and
`None` returned); a falsy (empty) result is treated the same way, and
the fallback is `generate_circle_data()` with its default radius 28 and
default color `(0, 255, 255)`. -/
def static_image_display (loaded : Option (List (List PixColor))) : List (List PixColor) :=
  match loaded with
  | some l => if l.isEmpty then generate_circle_data 28 (0, 255, 255) else l
  | none => generate_circle_data 28 (0, 255, 255)

/-- The fixed circle palette of `cycle_content`. -/
def circle_cycle_palette : List (ℚ × ℚ × ℚ) :=
  [(0, 255, 255), (255, 255, 0), (255, 0, 255), (0, 255, 0)]

/-- The `current_mode == "circle"` branch of `cycle_content`: the new
`display_data` is a circle colored by
`colors[rotation_count % len(colors)]`. -/
def cycle_circle_display (rot_count : Int) : List (List PixColor) :=
  generate_circle_data 28
    (circle_cycle_palette.getD (rot_count % (circle_cycle_palette.length : Int)).toNat (0, 0, 0))

/- ===== Helper lemmas ===== -/

theorem fill_loop_succ (f : Nat → Nat) (v : Nat → PixColor) (g : Nat → Bool)
    (n : Nat) (arr : List PixColor) :
    fill_loop f v g (n + 1) arr = set_step f v g (fill_loop f v g n arr) n := by
  unfold fill_loop
  rw [List.range_succ, List.foldl_append, List.foldl_cons, List.foldl_nil]

theorem set_step_length (f : Nat → Nat) (v : Nat → PixColor) (g : Nat → Bool)
    (a : List PixColor) (i : Nat) : (set_step f v g a i).length = a.length := by
  unfold set_step
  split <;> simp

theorem fill_loop_length (f : Nat → Nat) (v : Nat → PixColor) (g : Nat → Bool)
    (n : Nat) (arr : List PixColor) : (fill_loop f v g n arr).length = arr.length := by
  induction n with
  | zero => rfl
  | succ n ih => rw [fill_loop_succ, set_step_length, ih]

theorem set_step_getD_ne (f : Nat → Nat) (v : Nat → PixColor) (g : Nat → Bool)
    (a : List PixColor) (i p : Nat) (d : PixColor) (h : f i ≠ p) :
    (set_step f v g a i).getD p d = a.getD p d := by
  unfold set_step
  split
  · rw [List.getD_eq_getElem?_getD, List.getD_eq_getElem?_getD, List.getElem?_set, if_neg h]
  · rfl

theorem fill_loop_getD_of_not_hit (f : Nat → Nat) (v : Nat → PixColor) (g : Nat → Bool)
    (n : Nat) (arr : List PixColor) (p : Nat) (d : PixColor)
    (h : ∀ i, i < n → f i ≠ p) :
    (fill_loop f v g n arr).getD p d = arr.getD p d := by
  induction n with
  | zero => rfl
  | succ n ih =>
    rw [fill_loop_succ, set_step_getD_ne _ _ _ _ _ _ _ (h n (Nat.lt_succ_self n))]
    exact ih (fun i hi => h i (Nat.lt_succ_of_lt hi))

theorem fill_loop_getD_hit (f : Nat → Nat) (v : Nat → PixColor) (g : Nat → Bool)
    (n : Nat) (arr : List PixColor) (p : Nat) (d : PixColor) (j : Nat)
    (hj : j < n) (hfj : f j = p) (huniq : ∀ i, i < n → f i = p → i = j)
    (hp : p < arr.length) :
    (fill_loop f v g n arr).getD p d = if g j then v j else arr.getD p d := by
  induction n with
  | zero => omega
  | succ n ih =>
    rw [fill_loop_succ]
    by_cases hjn : j = n
    · subst hjn
      have hpre : (fill_loop f v g j arr).getD p d = arr.getD p d := by
        refine fill_loop_getD_of_not_hit f v g j arr p d (fun i hi hip => ?_)
        have := huniq i (Nat.lt_succ_of_lt hi) hip
        omega
      unfold set_step
      rw [hfj]
      split
      · rw [List.getD_eq_getElem?_getD, List.getElem?_set, if_pos rfl,
          if_pos (by rw [fill_loop_length]; exact hp)]
        rfl
      · exact hpre
    · have hjn2 : j < n := by omega
      have hfn : f n ≠ p := fun hc => hjn (huniq n (Nat.lt_succ_self n) hc).symm
      rw [set_step_getD_ne _ _ _ _ _ _ _ hfn]
      exact ih hjn2 (fun i hi hip => huniq i (Nat.lt_succ_of_lt hi) hip)

theorem sum_div_length_le (l : List ℚ) (b : ℚ) (hne : l ≠ []) (h : ∀ x ∈ l, x ≤ b) :
    l.sum / l.length ≤ b := by
  have hlen : 0 < (l.length : ℚ) := by
    have : 0 < l.length := List.length_pos.mpr hne
    exact_mod_cast this
  rw [div_le_iff₀ hlen]
  have := List.sum_le_card_nsmul l b h
  rwa [nsmul_eq_mul, mul_comm] at this

theorem le_sum_div_length (l : List ℚ) (a : ℚ) (hne : l ≠ []) (h : ∀ x ∈ l, a ≤ x) :
    a ≤ l.sum / l.length := by
  have hlen : 0 < (l.length : ℚ) := by
    have : 0 < l.length := List.length_pos.mpr hne
    exact_mod_cast this
  rw [le_div_iff₀ hlen]
  have := List.card_nsmul_le_sum l a h
  rwa [nsmul_eq_mul, mul_comm] at this

theorem trimmed_subset (l : List ℚ) (x : ℚ)
    (hx : x ∈ ((List.insertionSort (· ≤ ·) l).drop 1).dropLast) : x ∈ l := by
  have h1 : x ∈ (List.insertionSort (· ≤ ·) l).drop 1 :=
    (List.dropLast_sublist _).mem hx
  have h2 : x ∈ List.insertionSort (· ≤ ·) l := (List.drop_sublist _ _).mem h1
  exact (List.perm_insertionSort _ l).mem_iff.mp h2

theorem trimmed_length (l : List ℚ) :
    (((List.insertionSort (· ≤ ·) l).drop 1).dropLast).length = l.length - 1 - 1 := by
  rw [List.length_dropLast, List.length_drop, List.length_insertionSort]

theorem compute_stable_rpm_bounds (l : List ℚ) (inst a b : ℚ) (hne : l ≠ [])
    (h : ∀ x ∈ l, a ≤ x ∧ x ≤ b) :
    a ≤ compute_stable_rpm l inst ∧ compute_stable_rpm l inst ≤ b := by
  unfold compute_stable_rpm
  split
  · next hlen =>
    have hlt : (((List.insertionSort (· ≤ ·) l).drop 1).dropLast).length = l.length - 2 := by
      rw [trimmed_length]; omega
    have htne : ((List.insertionSort (· ≤ ·) l).drop 1).dropLast ≠ [] := by
      intro hc
      rw [hc] at hlt
      simp at hlt
      omega
    rw [if_neg (by simpa [List.isEmpty_iff] using htne)]
    exact ⟨le_sum_div_length _ _ htne (fun x hx => (h x (trimmed_subset l x hx)).1),
      sum_div_length_le _ _ htne (fun x hx => (h x (trimmed_subset l x hx)).2)⟩
  · exact ⟨le_sum_div_length _ _ hne (fun x hx => (h x hx).1),
      sum_div_length_le _ _ hne (fun x hx => (h x hx).2)⟩

theorem min_rotation_time_eq : min_rotation_time = 40000 := by
  norm_num [min_rotation_time, py_int, MAX_RPM]

theorem max_rotation_time_eq : max_rotation_time = 300000 := by
  norm_num [max_rotation_time, py_int, MIN_RPM]

theorem instant_rpm_bounds (m : Int) (h1 : (40000 : Int) ≤ m) (h2 : m ≤ 300000) :
    (200 : ℚ) ≤ instant_rpm_of m ∧ instant_rpm_of m ≤ 1500 := by
  have hm : (0 : ℚ) < (m : ℚ) := by
    have : (0 : Int) < m := by omega
    exact_mod_cast this
  have h1q : (40000 : ℚ) ≤ (m : ℚ) := by exact_mod_cast h1
  have h2q : (m : ℚ) ≤ 300000 := by exact_mod_cast h2
  constructor
  · rw [instant_rpm_of, le_div_iff₀ hm]
    nlinarith
  · rw [instant_rpm_of, div_le_iff₀ hm]
    nlinarith

theorem py_int_intCast_div_intCast (n d : Int) (hn : 0 ≤ n) (hd : 0 < d) :
    py_int ((n : ℚ) / (d : ℚ)) = n / d := by
  obtain ⟨m, rfl⟩ : ∃ m : Nat, d = (m : Int) := ⟨d.toNat, by omega⟩
  have h0 : (0 : ℚ) ≤ (n : ℚ) / ((m : Int) : ℚ) := by
    apply div_nonneg
    · exact_mod_cast hn
    · push_cast
      positivity
  rw [py_int_eq_floor _ h0]
  push_cast
  exact Rat.floor_intCast_div_natCast n m

/- ===== C1: catch-up skip in the scheduler loop ===== -/

/-- C1, counterexample.  With 40 divisions, a per-slice budget of 2800µs,
`remaining = -6000` (so `skip = floor(6000/2800) = 2`), current index 5
and missed counter 0, the code leaves the index at `5 + 2 + 1 = 8`,
not at `(5 + 2) % 40 = 7` as the claim's "advance by exactly `skip`
in place of the normal advance of 1" (with wrap modulo the division
count) would require. -/
theorem catch_up_counterexample :
    advance_line 40 2800 (-6000) 5 0 = (8, 2) ∧ ((8 : Int) ≠ (5 + 2) % 40) := by
  constructor
  · have hskip : py_int ((-(-6000 : Int) : ℚ) / ((2800 : Int) : ℚ)) = 2 := by
      norm_num [py_int]
    simp only [advance_line, hskip]
    norm_num
  · decide

/-- C1, amended.  In the scheduler loop, when `remaining < -1000`, the
slice index is advanced by `skip + 1` — the catch-up skip
`skip = floor(-remaining / per_slice_us)` in addition to the normal
advance of 1 — the missed-slice counter is increased by `skip`, and the
resulting index is reset to 0 whenever it reaches or exceeds the
division count (not reduced modulo it). -/
theorem catch_up_skip_plus_one (num_divs : Nat) (tpl remaining cur missed : Int)
    (htpl : 0 < tpl) (hrem : remaining < -1000) :
    advance_line num_divs tpl remaining cur missed =
      (if (num_divs : Int) ≤ cur + (-remaining) / tpl + 1 then 0
       else cur + (-remaining) / tpl + 1,
       missed + (-remaining) / tpl) := by
  have hneg : (0 : Int) ≤ -remaining := by omega
  have hskip : py_int (-(remaining : ℚ) / (tpl : ℚ)) = (-remaining) / tpl := by
    have h := py_int_intCast_div_intCast (-remaining) tpl hneg htpl
    rwa [Int.cast_neg] at h
  have hnonneg : 0 ≤ (-remaining) / tpl := Int.ediv_nonneg hneg (le_of_lt htpl)
  simp only [advance_line, if_neg (by omega : ¬(0 : Int) < remaining), if_pos hrem, hskip]
  rcases Int.lt_or_le 0 ((-remaining) / tpl) with hpos | hz
  · rw [if_pos hpos]
  · have : (-remaining) / tpl = 0 := by omega
    rw [this]
    norm_num

/-- C1, witness for the amended theorem at `num_divs = 40`,
`per_slice = 2800`, `remaining = -6000`, index 5, counter 0. -/
theorem catch_up_skip_plus_one_witness :
    (0 : Int) < 2800 ∧ (-6000 : Int) < -1000 ∧
      advance_line 40 2800 (-6000) 5 0 = (8, 2) := by
  refine ⟨by norm_num, by norm_num, ?_⟩
  rw [catch_up_skip_plus_one 40 2800 (-6000) 5 0 (by norm_num) (by norm_num)]
  decide

/- ===== C2: resynchronization flag during the post-push wait ===== -/

/-- C2, counterexample.  Clock trace `k`, target time 10, and the
resynchronization flag raised from tick 2 onward: the scheduler's
post-push spin-wait (`while get_time_micros() < target_time: pass` in
`display_current_line`) still runs to its full duration (exits only at
tick 10), even though the flag became set mid-wait at tick 2 — where a
flag-honoring wait (`precise_micros_delay`) exits at tick 2. -/
theorem spin_wait_flag_counterexample :
    display_spin_wait 20 (fun k => (k : Int)) (fun k => decide (2 ≤ k)) 10 0 = 10 ∧
    (fun k => decide (2 ≤ k)) 2 = true ∧ (2 : Nat) < 10 ∧
    precise_delay_wait 20 (fun k => (k : Int)) (fun k => decide (2 ≤ k)) 10 0 = 2 := by
  refine ⟨by decide, by decide, by decide, by decide⟩

/-- C2, amended.  The post-push spin-wait of `display_current_line` does
not consult the resynchronization flag at all — its exit tick is the
same for every flag trace, so it runs to its full duration regardless
of the flag — while the helper `precise_micros_delay` (not called from
the scheduler loop) does abort as soon as the flag is observed set. -/
theorem scheduler_wait_ignores_flag :
    (∀ (fuel : Nat) (clock : Nat → Int) (flag1 flag2 : Nat → Bool) (target : Int) (k : Nat),
      display_spin_wait fuel clock flag1 target k = display_spin_wait fuel clock flag2 target k) ∧
    (∀ (fuel : Nat) (clock : Nat → Int) (flag : Nat → Bool) (target : Int) (k : Nat),
      flag k = true → clock k < target →
      precise_delay_wait (fuel + 1) clock flag target k = k) := by
  constructor
  · intro fuel clock flag1 flag2 target k
    induction fuel generalizing k with
    | zero => rfl
    | succ n ih =>
      simp only [display_spin_wait]
      split
      · exact ih (k + 1)
      · rfl
  · intro fuel clock flag target k hf hc
    simp only [precise_delay_wait, if_pos hc, hf, if_true]

/-- C2, witness: the amended theorem applied at a concrete clock,
target 5, and the always-set flag trace. -/
theorem scheduler_wait_ignores_flag_witness :
    display_spin_wait 7 (fun k => (k : Int)) (fun _ => true) 5 0 =
      display_spin_wait 7 (fun k => (k : Int)) (fun _ => false) 5 0 ∧
    precise_delay_wait 4 (fun k => (k : Int)) (fun _ => true) 5 0 = 0 := by
  constructor
  · exact scheduler_wait_ignores_flag.1 7 (fun k => (k : Int)) (fun _ => true) (fun _ => false) 5 0
  · exact scheduler_wait_ignores_flag.2 3 (fun k => (k : Int)) (fun _ => true) 5 0 rfl (by decide)

/- ===== C3: bookkeeping on noise-rejected pulses ===== -/

/-- The debounce rejection condition of `check_hall_sensor`:
`time_since_last < HALL_DEBOUNCE_US`. -/
def debounce_rejected (s : HallState) (t : Int) : Prop :=
  t - s.last_hall_trigger_time < HALL_DEBOUNCE_US

/-- The out-of-range-period rejection condition of `check_hall_sensor`. -/
def range_rejected (s : HallState) (t : Int) : Prop :=
  ¬debounce_rejected s t ∧ 0 < s.last_rotation_micros ∧
    ¬(min_rotation_time ≤ t - s.last_rotation_micros ∧
      t - s.last_rotation_micros ≤ max_rotation_time)

/-- The RPM-outlier rejection condition of `check_hall_sensor`. -/
def outlier_rejected (s : HallState) (t : Int) : Prop :=
  ¬debounce_rejected s t ∧ 0 < s.last_rotation_micros ∧
    (min_rotation_time ≤ t - s.last_rotation_micros ∧
      t - s.last_rotation_micros ≤ max_rotation_time) ∧
    3 ≤ s.rpm_history.length ∧
    MAX_RPM_CHANGE_PERCENT <
      |instant_rpm_of (t - s.last_rotation_micros) - history_mean s.rpm_history| /
        history_mean s.rpm_history * 100

/-- A state about to receive a pulse inside the debounce window:
display at slice 7, two history samples, last trigger at t=1000000µs. -/
def reject_probe_state : HallState where
  last_hall_trigger_time := 1000000
  last_rotation_micros := 900000
  rotation_time_micros := 120000
  time_per_line_micros := 3000
  current_line := 7
  rotation_count := 9
  valid_rotation_count := 7
  noise_rejected_count := 2
  rpm_history := [500, 500]
  current_rpm := 500
  stable_rpm := 500
  rotation_active := true
  rotation_end_flag := false
  gif_mode_active := false
  sequence_len := 0
  current_frame_index := 0

/-- C3, counterexample.  A pulse at t=1000100µs, 100µs after the last
trigger, is rejected by debounce (the rejected counter increments), yet
the slice index is left at 7 — it is not reset to 0 as the claim states
for every noise-rejected pulse. -/
theorem debounce_no_resync_counterexample :
    (check_hall_pulse reject_probe_state 1000100).noise_rejected_count =
      reject_probe_state.noise_rejected_count + 1 ∧
    (check_hall_pulse reject_probe_state 1000100).current_line = 7 ∧
    (check_hall_pulse reject_probe_state 1000100).current_line ≠ 0 := by
  have h : check_hall_pulse reject_probe_state 1000100 =
      { reject_probe_state with
          noise_rejected_count := reject_probe_state.noise_rejected_count + 1 } := by
    rw [check_hall_pulse, if_pos (by norm_num [reject_probe_state, HALL_DEBOUNCE_US])]
  rw [h]
  refine ⟨rfl, rfl, by decide⟩

/-- C3, amended.  Every pulse rejected as noise (debounce violation,
out-of-range period, or RPM outlier) increments the rejected counter and
leaves the RPM history and the smoothed RPM estimate unchanged; the
out-of-range and outlier rejections additionally reset the slice index
to 0, but a debounce rejection leaves the slice index unchanged. -/
theorem noise_rejection_bookkeeping (s : HallState) (t : Int)
    (h : debounce_rejected s t ∨ range_rejected s t ∨ outlier_rejected s t) :
    (check_hall_pulse s t).noise_rejected_count = s.noise_rejected_count + 1 ∧
    (check_hall_pulse s t).rpm_history = s.rpm_history ∧
    (check_hall_pulse s t).stable_rpm = s.stable_rpm ∧
    (debounce_rejected s t → (check_hall_pulse s t).current_line = s.current_line) ∧
    (¬debounce_rejected s t → (check_hall_pulse s t).current_line = 0) := by
  rcases h with hd | hr | ho
  · have hds := hd
    rw [debounce_rejected] at hds
    rw [check_hall_pulse, if_pos hds]
    exact ⟨rfl, rfl, rfl, fun _ => rfl, fun hc => absurd hd hc⟩
  · obtain ⟨hnd, hlr, hrange⟩ := hr
    have hnds : ¬(t - s.last_hall_trigger_time < HALL_DEBOUNCE_US) := hnd
    rw [check_hall_pulse, if_neg hnds, if_pos (by simpa using hlr), if_pos (by simpa using hrange)]
    exact ⟨rfl, rfl, rfl, fun hc => absurd hc hnd, fun _ => rfl⟩
  · obtain ⟨hnd, hlr, hrange, hlen, hchg⟩ := ho
    have hnds : ¬(t - s.last_hall_trigger_time < HALL_DEBOUNCE_US) := hnd
    rw [check_hall_pulse, if_neg hnds, if_pos (by simpa using hlr),
      if_neg (by simpa using hrange), if_pos (by simpa using And.intro hlen hchg)]
    exact ⟨rfl, rfl, rfl, fun hc => absurd hc hnd, fun _ => rfl⟩

/-- C3, witness: the amended theorem applied to the debounce-rejected
pulse at t=1000100µs on `reject_probe_state`. -/
theorem noise_rejection_bookkeeping_witness :
    debounce_rejected reject_probe_state 1000100 ∧
    (check_hall_pulse reject_probe_state 1000100).noise_rejected_count =
      reject_probe_state.noise_rejected_count + 1 ∧
    (check_hall_pulse reject_probe_state 1000100).rpm_history =
      reject_probe_state.rpm_history ∧
    (check_hall_pulse reject_probe_state 1000100).stable_rpm =
      reject_probe_state.stable_rpm ∧
    (check_hall_pulse reject_probe_state 1000100).current_line =
      reject_probe_state.current_line := by
  have hd : debounce_rejected reject_probe_state 1000100 := by
    norm_num [debounce_rejected, reject_probe_state, HALL_DEBOUNCE_US]
  have h := noise_rejection_bookkeeping reject_probe_state 1000100 (Or.inl hd)
  exact ⟨hd, h.1, h.2.1, h.2.2.1, h.2.2.2.1 hd⟩

/- ===== C4: outlier acceptance boundary ===== -/

theorem finish_pulse_fields (s : HallState) (t : Int) :
    (finish_pulse s t).valid_rotation_count = s.valid_rotation_count ∧
    (finish_pulse s t).rpm_history = s.rpm_history ∧
    (finish_pulse s t).stable_rpm = s.stable_rpm ∧
    (finish_pulse s t).time_per_line_micros = s.time_per_line_micros ∧
    (finish_pulse s t).current_line = 0 ∧
    (finish_pulse s t).noise_rejected_count = s.noise_rejected_count := by
  unfold finish_pulse
  split <;> exact ⟨rfl, rfl, rfl, rfl, rfl, rfl⟩

/-- C4.  Once the history holds at least 3 samples with (positive) mean
`M`, a pulse that has passed debounce and period validation is accepted
(the valid-rotation counter increments) iff
`|S - M| / M * 100 ≤ MAX_RPM_CHANGE_PERCENT` for the instantaneous
sample `S` — the boundary case `= MAX_RPM_CHANGE_PERCENT` is accepted —
and an accepted sample is appended to the (FIFO-bounded) history. -/
theorem outlier_acceptance_boundary (s : HallState) (t : Int)
    (hnd : ¬debounce_rejected s t)
    (hlr : 0 < s.last_rotation_micros)
    (hrange : min_rotation_time ≤ t - s.last_rotation_micros ∧
      t - s.last_rotation_micros ≤ max_rotation_time)
    (hlen : 3 ≤ s.rpm_history.length)
    (hM : 0 < history_mean s.rpm_history) :
    ((check_hall_pulse s t).valid_rotation_count = s.valid_rotation_count + 1 ↔
      |instant_rpm_of (t - s.last_rotation_micros) - history_mean s.rpm_history| /
        history_mean s.rpm_history * 100 ≤ MAX_RPM_CHANGE_PERCENT) ∧
    (|instant_rpm_of (t - s.last_rotation_micros) - history_mean s.rpm_history| /
        history_mean s.rpm_history * 100 ≤ MAX_RPM_CHANGE_PERCENT →
      (check_hall_pulse s t).rpm_history =
        (if RPM_HISTORY_SIZE <
            (s.rpm_history ++ [instant_rpm_of (t - s.last_rotation_micros)]).length
         then (s.rpm_history ++ [instant_rpm_of (t - s.last_rotation_micros)]).drop 1
         else s.rpm_history ++ [instant_rpm_of (t - s.last_rotation_micros)])) := by
  have hnds : ¬(t - s.last_hall_trigger_time < HALL_DEBOUNCE_US) := hnd
  by_cases hc : |instant_rpm_of (t - s.last_rotation_micros) - history_mean s.rpm_history| /
      history_mean s.rpm_history * 100 ≤ MAX_RPM_CHANGE_PERCENT
  · have hcond : ¬(3 ≤ s.rpm_history.length ∧
        MAX_RPM_CHANGE_PERCENT <
          |instant_rpm_of (t - s.last_rotation_micros) - history_mean s.rpm_history| /
            history_mean s.rpm_history * 100) := by
      rintro ⟨-, hgt⟩
      exact absurd hc (not_le.mpr hgt)
    rw [check_hall_pulse, if_neg hnds]
    simp only
    rw [if_pos (by simpa using hlr), if_neg (by simpa using hrange), if_neg (by simpa using hcond)]
    constructor
    · rw [(finish_pulse_fields _ _).1]
      simp [hc]
    · intro _
      rw [(finish_pulse_fields _ _).2.1]
  · have hcond : (3 ≤ s.rpm_history.length ∧
        MAX_RPM_CHANGE_PERCENT <
          |instant_rpm_of (t - s.last_rotation_micros) - history_mean s.rpm_history| /
            history_mean s.rpm_history * 100) := ⟨hlen, not_le.mp hc⟩
    rw [check_hall_pulse, if_neg hnds]
    simp only
    rw [if_pos (by simpa using hlr), if_neg (by simpa using hrange), if_pos (by simpa using hcond)]
    constructor
    · simp only
      constructor
      · intro habs
        omega
      · intro habs
        exact absurd habs hc
    · intro habs
      exact absurd habs hc

/-- A state whose history mean is `6000/7` RPM, about to receive a pulse
whose instantaneous RPM (1200) sits exactly at the 40% outlier
boundary. -/
def boundary_probe_state : HallState where
  last_hall_trigger_time := 1000000
  last_rotation_micros := 1000000
  rotation_time_micros := 70000
  time_per_line_micros := 2800
  current_line := 3
  rotation_count := 12
  valid_rotation_count := 9
  noise_rejected_count := 1
  rpm_history := [6000 / 7, 6000 / 7, 6000 / 7]
  current_rpm := 6000 / 7
  stable_rpm := 6000 / 7
  rotation_active := true
  rotation_end_flag := false
  gif_mode_active := false
  sequence_len := 0
  current_frame_index := 0

/-- C4, witness: a pulse with period 50000µs (instant RPM 1200) against
history mean `6000/7` gives a relative change of exactly 40% — the
boundary — and is accepted. -/
theorem outlier_acceptance_boundary_witness :
    |instant_rpm_of (1050000 - boundary_probe_state.last_rotation_micros) -
        history_mean boundary_probe_state.rpm_history| /
        history_mean boundary_probe_state.rpm_history * 100 = MAX_RPM_CHANGE_PERCENT ∧
    (check_hall_pulse boundary_probe_state 1050000).valid_rotation_count =
      boundary_probe_state.valid_rotation_count + 1 := by
  have hb : |instant_rpm_of (1050000 - boundary_probe_state.last_rotation_micros) -
      history_mean boundary_probe_state.rpm_history| /
      history_mean boundary_probe_state.rpm_history * 100 = MAX_RPM_CHANGE_PERCENT := by
    have hi : instant_rpm_of (1050000 - boundary_probe_state.last_rotation_micros) = 1200 := by
      norm_num [instant_rpm_of, boundary_probe_state]
    have hm : history_mean boundary_probe_state.rpm_history = 6000 / 7 := by
      norm_num [history_mean, boundary_probe_state]
    rw [hi, hm, MAX_RPM_CHANGE_PERCENT]
    rw [show (1200 : ℚ) - 6000 / 7 = 2400 / 7 by norm_num]
    rw [abs_of_pos (by norm_num)]
    norm_num
  refine ⟨hb, ?_⟩
  have h := outlier_acceptance_boundary boundary_probe_state 1050000
    (by norm_num [debounce_rejected, boundary_probe_state, HALL_DEBOUNCE_US])
    (by norm_num [boundary_probe_state])
    (by rw [min_rotation_time_eq, max_rotation_time_eq]; norm_num [boundary_probe_state])
    (by norm_num [boundary_probe_state])
    (by norm_num [history_mean, boundary_probe_state])
  exact h.1.mpr (le_of_eq hb)

/- ===== Accepted-pulse characterization (shared by C5/C6) ===== -/

/-- The history after an accepted sample: append, then evict the oldest
entry if the FIFO bound is exceeded. -/
def new_history (s : HallState) (t : Int) : List ℚ :=
  let hist1 := s.rpm_history ++ [instant_rpm_of (t - s.last_rotation_micros)]
  if RPM_HISTORY_SIZE < hist1.length then hist1.drop 1 else hist1

theorem accepted_pulse_characterization (s : HallState) (t : Int)
    (h : (check_hall_pulse s t).valid_rotation_count = s.valid_rotation_count + 1) :
    (check_hall_pulse s t).rpm_history = new_history s t ∧
    (check_hall_pulse s t).stable_rpm =
      compute_stable_rpm (new_history s t) (instant_rpm_of (t - s.last_rotation_micros)) ∧
    (check_hall_pulse s t).time_per_line_micros =
      derive_time_per_line ((check_hall_pulse s t).stable_rpm) := by
  by_cases h1 : t - s.last_hall_trigger_time < HALL_DEBOUNCE_US
  · exfalso
    rw [check_hall_pulse, if_pos h1] at h
    simp at h
  · by_cases h2 : 0 < s.last_rotation_micros
    · by_cases h3 : min_rotation_time ≤ t - s.last_rotation_micros ∧
        t - s.last_rotation_micros ≤ max_rotation_time
      · by_cases h4 : 3 ≤ s.rpm_history.length ∧
          MAX_RPM_CHANGE_PERCENT <
            |instant_rpm_of (t - s.last_rotation_micros) - history_mean s.rpm_history| /
              history_mean s.rpm_history * 100
        · exfalso
          rw [check_hall_pulse, if_neg h1] at h
          simp only at h
          rw [if_pos (by simpa using h2), if_neg (by simpa using h3),
            if_pos (by simpa using h4)] at h
          simp at h
        · rw [check_hall_pulse, if_neg h1]
          simp only
          rw [if_pos (by simpa using h2), if_neg (by simpa using h3),
            if_neg (by simpa using h4)]
          refine ⟨?_, ?_, ?_⟩
          · rw [(finish_pulse_fields _ _).2.1]
            rfl
          · rw [(finish_pulse_fields _ _).2.2.1]
            rfl
          · rw [(finish_pulse_fields _ _).2.2.2.1, (finish_pulse_fields _ _).2.2.1]
      · exfalso
        rw [check_hall_pulse, if_neg h1] at h
        simp only at h
        rw [if_pos (by simpa using h2), if_pos (by simpa using h3)] at h
        simp at h
    · exfalso
      rw [check_hall_pulse, if_neg h1] at h
      simp only at h
      rw [if_neg (by simpa using h2)] at h
      rw [(finish_pulse_fields _ _).1] at h
      simp at h

/- ===== C5: trimmed-mean smoothing ===== -/

theorem sorted_head_le (s : List ℚ) (hs : List.Sorted (· ≤ ·) s) (hne : s ≠ [])
    (x : ℚ) (hx : x ∈ s) : s.head hne ≤ x := by
  cases s with
  | nil => exact absurd rfl hne
  | cons a t =>
    rcases List.mem_cons.mp hx with rfl | hxt
    · exact le_refl x
    · exact (List.sorted_cons.mp hs).1 x hxt

theorem sorted_le_getLast (s : List ℚ) (hs : List.Sorted (· ≤ ·) s) (hne : s ≠ [])
    (x : ℚ) (hx : x ∈ s) : x ≤ s.getLast hne := by
  induction s with
  | nil => exact absurd rfl hne
  | cons a t ih =>
    by_cases ht : t = []
    · subst ht
      rcases List.mem_cons.mp hx with rfl | hxt
      · exact le_refl x
      · exact absurd hxt (List.not_mem_nil x)
    · rw [List.getLast_cons ht]
      rcases List.mem_cons.mp hx with rfl | hxt
      · exact le_trans ((List.sorted_cons.mp hs).1 _ (List.getLast_mem ht))
          (le_refl _)
      · exact ih (List.sorted_cons.mp hs).2 ht hxt

theorem trimmed_sum_eq (s : List ℚ) (hne : s ≠ []) (hlen : 2 ≤ s.length) :
    ((s.drop 1).dropLast).sum = s.sum - s.head hne - s.getLast hne := by
  cases s with
  | nil => exact absurd rfl hne
  | cons a t =>
    have ht : t ≠ [] := by
      intro hc
      rw [hc] at hlen
      simp at hlen
    have hdecomp : t.dropLast ++ [t.getLast ht] = t := List.dropLast_append_getLast ht
    have hsum : t.dropLast.sum + t.getLast ht = t.sum := by
      conv_rhs => rw [← hdecomp]
      rw [List.sum_append, List.sum_cons, List.sum_nil, add_zero]
    rw [List.drop_one, List.tail_cons, List.head_cons, List.getLast_cons ht,
      List.sum_cons]
    linarith

/-- C5.  After each accepted sample the smoothed RPM is
`compute_stable_rpm` of the updated history; with at least 5 samples
this equals the trimmed mean — the history sum minus one minimum and
one maximum element, divided by `length - 2` — with fewer it is the
plain mean, and on the history `[100,100,100,100,200]` it is exactly
100. -/
theorem trimmed_mean_smoothing :
    (∀ (history : List ℚ) (inst : ℚ), 5 ≤ history.length →
      ∃ lo hi, lo ∈ history ∧ hi ∈ history ∧
        (∀ x ∈ history, lo ≤ x) ∧ (∀ x ∈ history, x ≤ hi) ∧
        compute_stable_rpm history inst =
          (history.sum - lo - hi) / ((history.length : ℚ) - 2)) ∧
    (∀ (history : List ℚ) (inst : ℚ), history.length < 5 →
      compute_stable_rpm history inst = history.sum / history.length) ∧
    compute_stable_rpm [100, 100, 100, 100, 200] 0 = 100 ∧
    (∀ (s : HallState) (t : Int),
      (check_hall_pulse s t).valid_rotation_count = s.valid_rotation_count + 1 →
      (check_hall_pulse s t).stable_rpm =
        compute_stable_rpm ((check_hall_pulse s t).rpm_history)
          (instant_rpm_of (t - s.last_rotation_micros))) := by
  refine ⟨?_, ?_, ?_, ?_⟩
  · intro history inst hlen
    have hperm := List.perm_insertionSort (· ≤ ·) history
    have hsort := List.sorted_insertionSort (· ≤ ·) history
    have hslen : (List.insertionSort (· ≤ ·) history).length = history.length :=
      List.length_insertionSort _ _
    have hsne : List.insertionSort (· ≤ ·) history ≠ [] := by
      intro hc
      rw [hc] at hslen
      simp at hslen
      omega
    refine ⟨(List.insertionSort (· ≤ ·) history).head hsne,
      (List.insertionSort (· ≤ ·) history).getLast hsne,
      hperm.mem_iff.mp (List.head_mem hsne),
      hperm.mem_iff.mp (List.getLast_mem hsne), ?_, ?_, ?_⟩
    · intro x hx
      exact sorted_head_le _ hsort hsne x (hperm.mem_iff.mpr hx)
    · intro x hx
      exact sorted_le_getLast _ hsort hsne x (hperm.mem_iff.mpr hx)
    · have htlen : (((List.insertionSort (· ≤ ·) history).drop 1).dropLast).length =
          history.length - 2 := by
        rw [trimmed_length]
        omega
      have htne : ¬(((List.insertionSort (· ≤ ·) history).drop 1).dropLast).isEmpty = true := by
        rw [List.isEmpty_iff]
        intro hc
        rw [hc] at htlen
        simp at htlen
        omega
      rw [compute_stable_rpm, if_pos hlen]
      simp only
      rw [if_neg htne]
      rw [trimmed_sum_eq _ hsne (by omega), htlen, hperm.sum_eq]
      congr 1
      have h2 : (2 : Nat) ≤ history.length := by omega
      push_cast [Nat.cast_sub h2]
      ring
  · intro history inst hlen
    rw [compute_stable_rpm, if_neg (by omega)]
  · have hsort5 : List.insertionSort (· ≤ ·) ([100, 100, 100, 100, 200] : List ℚ) =
        [100, 100, 100, 100, 200] := by
      norm_num [List.insertionSort, List.orderedInsert]
    rw [compute_stable_rpm, if_pos (by norm_num)]
    simp only [hsort5]
    norm_num
  · intro s t h
    obtain ⟨hh, hs, -⟩ := accepted_pulse_characterization s t h
    rw [hs, hh]

/-- C5, witness: the trimmed-mean branch applied to the concrete history
`[100,100,100,100,200]` (the minimum 100 and maximum 200 are dropped),
and the accepted-pulse conjunct applied to the boundary-probe pulse. -/
theorem trimmed_mean_smoothing_witness :
    (∃ lo hi, lo ∈ ([100, 100, 100, 100, 200] : List ℚ) ∧
      hi ∈ ([100, 100, 100, 100, 200] : List ℚ) ∧
      (∀ x ∈ ([100, 100, 100, 100, 200] : List ℚ), lo ≤ x) ∧
      (∀ x ∈ ([100, 100, 100, 100, 200] : List ℚ), x ≤ hi) ∧
      compute_stable_rpm [100, 100, 100, 100, 200] 0 =
        (([100, 100, 100, 100, 200] : List ℚ).sum - lo - hi) /
          ((([100, 100, 100, 100, 200] : List ℚ).length : ℚ) - 2)) ∧
    compute_stable_rpm [200, 500] 0 = 350 := by
  constructor
  · exact trimmed_mean_smoothing.1 [100, 100, 100, 100, 200] 0 (by norm_num)
  · rw [trimmed_mean_smoothing.2.1 [200, 500] 0 (by norm_num)]
    norm_num

/- ===== C6: per-slice duration clamping ===== -/

theorem boundary_probe_accepts :
    (check_hall_pulse boundary_probe_state 1050000).valid_rotation_count =
      boundary_probe_state.valid_rotation_count + 1 := by
  have hchange : |instant_rpm_of (1050000 - boundary_probe_state.last_rotation_micros) -
      history_mean boundary_probe_state.rpm_history| /
      history_mean boundary_probe_state.rpm_history * 100 = 40 := by
    have hi : instant_rpm_of (1050000 - boundary_probe_state.last_rotation_micros) = 1200 := by
      norm_num [instant_rpm_of, boundary_probe_state]
    have hm : history_mean boundary_probe_state.rpm_history = 6000 / 7 := by
      norm_num [history_mean, boundary_probe_state]
    rw [hi, hm, show (1200 : ℚ) - 6000 / 7 = 2400 / 7 by norm_num, abs_of_pos (by norm_num)]
    norm_num
  have hrange : min_rotation_time ≤ 1050000 - boundary_probe_state.last_rotation_micros ∧
      1050000 - boundary_probe_state.last_rotation_micros ≤ max_rotation_time := by
    rw [min_rotation_time_eq, max_rotation_time_eq]
    norm_num [boundary_probe_state]
  have hno : ¬(3 ≤ boundary_probe_state.rpm_history.length ∧
      MAX_RPM_CHANGE_PERCENT <
        |instant_rpm_of (1050000 - boundary_probe_state.last_rotation_micros) -
          history_mean boundary_probe_state.rpm_history| /
          history_mean boundary_probe_state.rpm_history * 100) := by
    rintro ⟨-, hgt⟩
    rw [hchange] at hgt
    norm_num [MAX_RPM_CHANGE_PERCENT] at hgt
  rw [check_hall_pulse, if_neg (by norm_num [boundary_probe_state, HALL_DEBOUNCE_US])]
  simp only
  rw [if_pos (by norm_num [boundary_probe_state]), if_neg (by simpa using hrange),
    if_neg (by simpa using hno)]
  rw [(finish_pulse_fields _ _).1]

/-- C6.  After every accepted pulse the derived per-slice duration is the
maximum of the raw per-slice value (`int(60e6 / stable_rpm)` floor-divided
by the division count) and the `LED_UPDATE_TIME_US` floor of 2800µs; with
the configured 40 divisions, smoothed RPM 1500 gives 2800µs (floor
engaged) and smoothed RPM 500 gives 3000µs. -/
theorem per_slice_floor_clamp :
    (∀ (s : HallState) (t : Int),
      (check_hall_pulse s t).valid_rotation_count = s.valid_rotation_count + 1 →
      (check_hall_pulse s t).time_per_line_micros =
        max (py_int (60000000 / (check_hall_pulse s t).stable_rpm) / (NUM_DIVISIONS : Int))
          LED_UPDATE_TIME_US) ∧
    derive_time_per_line 1500 = 2800 ∧
    derive_time_per_line 500 = 3000 := by
  refine ⟨?_, ?_, ?_⟩
  · intro s t h
    rw [(accepted_pulse_characterization s t h).2.2, derive_time_per_line]
    split
    · next hlt => exact (max_eq_right (le_of_lt hlt)).symm
    · next hge => exact (max_eq_left (not_lt.mp hge)).symm
  · norm_num [derive_time_per_line, py_int, NUM_DIVISIONS, LED_UPDATE_TIME_US]
  · norm_num [derive_time_per_line, py_int, NUM_DIVISIONS, LED_UPDATE_TIME_US]

/-- C6, witness: the accepted boundary-probe pulse, whose post-pulse
per-slice duration satisfies the max-clamp characterization. -/
theorem per_slice_floor_clamp_witness :
    (check_hall_pulse boundary_probe_state 1050000).valid_rotation_count =
      boundary_probe_state.valid_rotation_count + 1 ∧
    (check_hall_pulse boundary_probe_state 1050000).time_per_line_micros =
      max (py_int (60000000 / (check_hall_pulse boundary_probe_state 1050000).stable_rpm) /
        (NUM_DIVISIONS : Int)) LED_UPDATE_TIME_US :=
  ⟨boundary_probe_accepts,
    per_slice_floor_clamp.1 boundary_probe_state 1050000 boundary_probe_accepts⟩

/- ===== C7: odd/even antipodal arrangement ===== -/

theorem fill_loop_rev_getD (v : Nat → PixColor) (g : Nat → Bool) (L : Nat)
    (arr : List PixColor) (d : PixColor) (i : Nat) (hi : i < L)
    (harr : L - 1 - i < arr.length) :
    (fill_loop (fun j => L - 1 - j) v g L arr).getD (L - 1 - i) d =
      if g i then v i else arr.getD (L - 1 - i) d :=
  fill_loop_getD_hit _ _ _ _ _ _ _ i hi rfl (fun j hj hfj => by omega) harr

theorem fill_loop_shift_getD (v : Nat → PixColor) (g : Nat → Bool) (L : Nat)
    (arr : List PixColor) (d : PixColor) (i : Nat) (hi : i < L)
    (harr : L + i < arr.length) :
    (fill_loop (fun j => L + j) v g L arr).getD (L + i) d =
      if g i then v i else arr.getD (L + i) d :=
  fill_loop_getD_hit _ _ _ _ _ _ _ i hi rfl (fun j hj hfj => by omega) harr

/-- C7.  For a source table with an even number of divisions and any
division `d`: in the arranged row for `d`, physical position
`L - 1 - i` (half A, `L = led_count/2`) holds the sample at odd radial
index `2i + 1` of division `d`, and position `L + i` (half B) holds the
sample at even radial index `2i` of the antipodal division
`(d + divisions/2) % divisions` — each sample's channels scaled by the
brightness factor and truncated to integers (`scale_sample`). -/
theorem arrangement_odd_even_antipodal (slices : List (List (ℚ × ℚ × ℚ))) (d i : Nat)
    (hd : d < slices.length) (heven : slices.length % 2 = 0) (hi : i < NUM_LEDS / 2)
    (hrowA : i * 2 + 1 < (slices.getD d []).length)
    (hrowB : i * 2 < (slices.getD ((d + slices.length / 2) % slices.length) []).length) :
    ((arrange_colors_for_display slices).getD d []).getD (NUM_LEDS / 2 - 1 - i)
        (make_color 0 0 0) =
      scale_sample ((slices.getD d []).getD (i * 2 + 1) (0, 0, 0)) ∧
    ((arrange_colors_for_display slices).getD d []).getD (NUM_LEDS / 2 + i)
        (make_color 0 0 0) =
      scale_sample ((slices.getD ((d + slices.length / 2) % slices.length) []).getD (i * 2)
        (0, 0, 0)) := by
  have harr : (arrange_colors_for_display slices).getD d [] = arrange_line slices d := by
    rw [arrange_colors_for_display,
      List.getD_eq_getElem _ _ (by simpa using hd)]
    simp
  constructor
  · rw [harr]
    simp only [arrange_line]
    rw [fill_loop_getD_of_not_hit]
    · rw [fill_loop_rev_getD _ _ _ _ _ i hi (by rw [List.length_replicate]; omega)]
      rw [if_pos (by simpa using hrowA)]
    · intro j hj
      omega
  · rw [harr]
    simp only [arrange_line]
    rw [fill_loop_shift_getD _ _ _ _ _ i hi
      (by rw [fill_loop_length, List.length_replicate]; omega)]
    rw [if_pos (by simpa using hrowB)]

/-- A synthetic two-division table whose sample at division `d`, radial
index `k`, encodes `(d, k)` in its first two channels. -/
def synthetic_table : List (List (ℚ × ℚ × ℚ)) :=
  [[(0, 0, 0), (0, 1, 0), (0, 2, 0), (0, 3, 0)],
   [(1, 0, 0), (1, 1, 0), (1, 2, 0), (1, 3, 0)]]

/-- C7, witness: the mapping theorem applied to the synthetic table at
division 0, radial pair index 1: half A reads sample `(0, 3)` of
division 0 (odd index `1*2+1 = 3`), half B reads sample `(1, 2)` of the
antipodal division 1 (even index `1*2 = 2`). -/
theorem arrangement_odd_even_antipodal_witness :
    ((arrange_colors_for_display synthetic_table).getD 0 []).getD (NUM_LEDS / 2 - 1 - 1)
        (make_color 0 0 0) =
      scale_sample ((synthetic_table.getD 0 []).getD (1 * 2 + 1) (0, 0, 0)) ∧
    ((arrange_colors_for_display synthetic_table).getD 0 []).getD (NUM_LEDS / 2 + 1)
        (make_color 0 0 0) =
      scale_sample
        ((synthetic_table.getD ((0 + synthetic_table.length / 2) % synthetic_table.length)
          []).getD (1 * 2) (0, 0, 0)) :=
  arrangement_odd_even_antipodal synthetic_table 0 1
    (by norm_num [synthetic_table])
    (by norm_num [synthetic_table])
    (by norm_num [NUM_LEDS])
    (by norm_num [synthetic_table])
    (by norm_num [synthetic_table])

/- ===== C8: static-image load failure falls back to the default circle ===== -/

/-- C8.  When loading the requested static image fails — `np.load`
raised on a missing/corrupt artifact (`loaded = none`) or produced a
falsy empty table — the active display table afterwards is exactly
`generate_circle_data()` with its default radius 28 and default color
cyan `(0, 255, 255)`; that fallback table has the full division count
and is not blank (position 8 of row 0 carries the lit circle pixel).
No error propagates: the embedded loader is total, mirroring the
`try/except` that converts any load error into the fallback. -/
theorem static_image_load_failure_fallback :
    static_image_display none = generate_circle_data 28 (0, 255, 255) ∧
    static_image_display (some []) = generate_circle_data 28 (0, 255, 255) ∧
    (generate_circle_data 28 (0, 255, 255)).length = NUM_DIVISIONS ∧
    ((generate_circle_data 28 (0, 255, 255)).getD 0 []).getD 8 (make_color 0 0 0) ≠
      make_color 0 0 0 := by
  refine ⟨rfl, rfl, ?_, ?_⟩
  · rw [generate_circle_data]
    simp
  · have h : ((generate_circle_data 28 (0, 255, 255)).getD 0 []).getD 8 (make_color 0 0 0) =
        make_color (0 * BRIGHTNESS_RATE) (255 * BRIGHTNESS_RATE) (255 * BRIGHTNESS_RATE) := rfl
    rw [h]
    rw [show make_color (0 * BRIGHTNESS_RATE) (255 * BRIGHTNESS_RATE) (255 * BRIGHTNESS_RATE) =
          (⟨76, 0, 76⟩ : PixColor) by norm_num [make_color, py_int, LED_IS_GRB, BRIGHTNESS_RATE],
      show make_color 0 0 0 = (⟨0, 0, 0⟩ : PixColor) by
        norm_num [make_color, py_int, LED_IS_GRB]]
    decide

/- ===== C9: circle color cycling ===== -/

/-- C9, counterexample.  With the rotation counter at 0 (fan not
spinning between presses), pressing Circle in circle mode yields the
palette-0 (cyan) table; pressing again with the counter still 0 yields
the very same cyan table — not the next palette entry (yellow), whose
table differs.  The selected color therefore does not advance relative
to the current color. -/
theorem circle_color_cycle_counterexample :
    cycle_circle_display 0 = generate_circle_data 28 (0, 255, 255) ∧
    cycle_circle_display 0 ≠ generate_circle_data 28 (255, 255, 0) := by
  constructor
  · rfl
  · intro hc
    have hentry := congrArg
      (fun t => ((t : List (List PixColor)).getD 0 []).getD 8 (make_color 0 0 0)) hc
    simp only at hentry
    have h1 : ((cycle_circle_display 0).getD 0 []).getD 8 (make_color 0 0 0) =
        make_color (0 * BRIGHTNESS_RATE) (255 * BRIGHTNESS_RATE) (255 * BRIGHTNESS_RATE) := rfl
    have h2 : ((generate_circle_data 28 (255, 255, 0)).getD 0 []).getD 8 (make_color 0 0 0) =
        make_color (255 * BRIGHTNESS_RATE) (255 * BRIGHTNESS_RATE) (0 * BRIGHTNESS_RATE) := rfl
    rw [h1, h2] at hentry
    rw [show make_color (0 * BRIGHTNESS_RATE) (255 * BRIGHTNESS_RATE) (255 * BRIGHTNESS_RATE) =
          (⟨76, 0, 76⟩ : PixColor) by norm_num [make_color, py_int, LED_IS_GRB, BRIGHTNESS_RATE],
      show make_color (255 * BRIGHTNESS_RATE) (255 * BRIGHTNESS_RATE) (0 * BRIGHTNESS_RATE) =
          (⟨76, 76, 0⟩ : PixColor) by
        norm_num [make_color, py_int, LED_IS_GRB, BRIGHTNESS_RATE]] at hentry
    exact absurd hentry (by decide)

/-- C9, amended.  When the Circle command is issued while the mode is
already Circle, the new circle color is `palette[rotation_count % 4]` —
a function of the rotation counter alone, not of the currently
displayed color.  Two presses select the same entry whenever the
counter is congruent mod 4 (in particular, unchanged); consecutive
palette entries are selected only when the counter advances by exactly
one between the presses. -/
theorem circle_color_rotation_indexed (rc1 rc2 : Int) (h : rc1 % 4 = rc2 % 4) :
    cycle_circle_display rc1 = cycle_circle_display rc2 ∧
    cycle_circle_display rc1 =
      generate_circle_data 28 (circle_cycle_palette.getD (rc1 % 4).toNat (0, 0, 0)) := by
  constructor
  · rw [cycle_circle_display, cycle_circle_display,
      show ((circle_cycle_palette.length : Nat) : Int) = 4 from rfl, h]
  · rw [cycle_circle_display, show ((circle_cycle_palette.length : Nat) : Int) = 4 from rfl]

/-- C9, witness: rotation counts 0 and 4 are congruent mod 4 and select
the same (cyan) circle table. -/
theorem circle_color_rotation_indexed_witness :
    cycle_circle_display 0 = cycle_circle_display 4 ∧
    cycle_circle_display 0 =
      generate_circle_data 28 (circle_cycle_palette.getD ((0 : Int) % 4).toNat (0, 0, 0)) :=
  circle_color_rotation_indexed 0 4 (by decide)

/- ===== C10: RPM history / smoothed RPM invariants ===== -/

/-- The state invariant of the rotation tracker: every stored history
sample lies in `[MIN_RPM, MAX_RPM]`, the history never exceeds
`RPM_HISTORY_SIZE` entries, and the smoothed RPM lies in
`[MIN_RPM, MAX_RPM]`. -/
def hall_invariant (s : HallState) : Prop :=
  (∀ x ∈ s.rpm_history, ((MIN_RPM : Int) : ℚ) ≤ x ∧ x ≤ ((MAX_RPM : Int) : ℚ)) ∧
  s.rpm_history.length ≤ RPM_HISTORY_SIZE ∧
  ((MIN_RPM : Int) : ℚ) ≤ s.stable_rpm ∧ s.stable_rpm ≤ ((MAX_RPM : Int) : ℚ)

theorem check_hall_pulse_preserves_invariant (s : HallState) (t : Int)
    (h : hall_invariant s) : hall_invariant (check_hall_pulse s t) := by
  obtain ⟨hmem, hlen, hs1, hs2⟩ := h
  have hminq : ((MIN_RPM : Int) : ℚ) = 200 := by norm_num [MIN_RPM]
  have hmaxq : ((MAX_RPM : Int) : ℚ) = 1500 := by norm_num [MAX_RPM]
  by_cases h1 : t - s.last_hall_trigger_time < HALL_DEBOUNCE_US
  · rw [check_hall_pulse, if_pos h1]
    exact ⟨hmem, hlen, hs1, hs2⟩
  · by_cases h2 : 0 < s.last_rotation_micros
    · by_cases h3 : min_rotation_time ≤ t - s.last_rotation_micros ∧
        t - s.last_rotation_micros ≤ max_rotation_time
      · by_cases h4 : 3 ≤ s.rpm_history.length ∧
          MAX_RPM_CHANGE_PERCENT <
            |instant_rpm_of (t - s.last_rotation_micros) - history_mean s.rpm_history| /
              history_mean s.rpm_history * 100
        · rw [check_hall_pulse, if_neg h1]
          simp only
          rw [if_pos (by simpa using h2), if_neg (by simpa using h3),
            if_pos (by simpa using h4)]
          exact ⟨hmem, hlen, hs1, hs2⟩
        · have hib : (200 : ℚ) ≤ instant_rpm_of (t - s.last_rotation_micros) ∧
              instant_rpm_of (t - s.last_rotation_micros) ≤ 1500 := by
            apply instant_rpm_bounds
            · have hx := h3.1
              rwa [min_rotation_time_eq] at hx
            · have hx := h3.2
              rwa [max_rotation_time_eq] at hx
          have h1mem : ∀ x ∈ s.rpm_history ++ [instant_rpm_of (t - s.last_rotation_micros)],
              ((MIN_RPM : Int) : ℚ) ≤ x ∧ x ≤ ((MAX_RPM : Int) : ℚ) := by
            intro x hx
            rcases List.mem_append.mp hx with hx | hx
            · exact hmem x hx
            · have hx2 := List.mem_singleton.mp hx
              subst hx2
              rw [hminq, hmaxq]
              exact hib
          have h2mem : ∀ x ∈ (if RPM_HISTORY_SIZE <
                (s.rpm_history ++ [instant_rpm_of (t - s.last_rotation_micros)]).length then
                (s.rpm_history ++ [instant_rpm_of (t - s.last_rotation_micros)]).drop 1
              else s.rpm_history ++ [instant_rpm_of (t - s.last_rotation_micros)]),
              ((MIN_RPM : Int) : ℚ) ≤ x ∧ x ≤ ((MAX_RPM : Int) : ℚ) := by
            split
            · intro x hx
              exact h1mem x ((List.drop_sublist _ _).mem hx)
            · intro x hx
              exact h1mem x hx
          have h2ne : (if RPM_HISTORY_SIZE <
                (s.rpm_history ++ [instant_rpm_of (t - s.last_rotation_micros)]).length then
                (s.rpm_history ++ [instant_rpm_of (t - s.last_rotation_micros)]).drop 1
              else s.rpm_history ++ [instant_rpm_of (t - s.last_rotation_micros)]) ≠ [] := by
            split
            · next hb =>
              intro hc
              have hl := congrArg List.length hc
              rw [List.length_drop, List.length_append, List.length_singleton] at hl
              rw [List.length_append, List.length_singleton] at hb
              simp only [List.length_nil] at hl
              have hR : RPM_HISTORY_SIZE = 15 := rfl
              omega
            · intro hc
              simp at hc
          have hstable := compute_stable_rpm_bounds _
            (instant_rpm_of (t - s.last_rotation_micros)) _ _ h2ne h2mem
          rw [check_hall_pulse, if_neg h1]
          simp only
          rw [if_pos (by simpa using h2), if_neg (by simpa using h3),
            if_neg (by simpa using h4)]
          rw [hall_invariant, (finish_pulse_fields _ _).2.1, (finish_pulse_fields _ _).2.2.1]
          refine ⟨h2mem, ?_, hstable.1, hstable.2⟩
          show (if RPM_HISTORY_SIZE <
              (s.rpm_history ++ [instant_rpm_of (t - s.last_rotation_micros)]).length then
              (s.rpm_history ++ [instant_rpm_of (t - s.last_rotation_micros)]).drop 1
            else s.rpm_history ++ [instant_rpm_of (t - s.last_rotation_micros)]).length ≤
            RPM_HISTORY_SIZE
          split
          · next hb =>
            rw [List.length_drop, List.length_append]
            simp
            omega
          · next hb =>
            rw [List.length_append] at hb
            simp at hb
            rw [List.length_append]
            simp
            omega
      · rw [check_hall_pulse, if_neg h1]
        simp only
        rw [if_pos (by simpa using h2), if_pos (by simpa using h3)]
        exact ⟨hmem, hlen, hs1, hs2⟩
    · rw [check_hall_pulse, if_neg h1]
      simp only
      rw [if_neg (by simpa using h2)]
      rw [hall_invariant, (finish_pulse_fields _ _).2.1, (finish_pulse_fields _ _).2.2.1]
      exact ⟨hmem, hlen, hs1, hs2⟩

/-- C10.  After any sequence of pulse events from the module's initial
state, every value stored in the RPM history lies in
`[MIN_RPM, MAX_RPM]`, the history length never exceeds
`RPM_HISTORY_SIZE`, the smoothed RPM lies in `[MIN_RPM, MAX_RPM]` and
is strictly positive (so `60e6 / stable_rpm` never divides by zero),
and whenever the history is nonempty its mean — the divisor of the
outlier test — is strictly positive as well. -/
theorem rpm_state_invariant (events : List Int) :
    hall_invariant (events.foldl check_hall_pulse initial_hall_state) ∧
    0 < (events.foldl check_hall_pulse initial_hall_state).stable_rpm ∧
    (1 ≤ (events.foldl check_hall_pulse initial_hall_state).rpm_history.length →
      0 < history_mean ((events.foldl check_hall_pulse initial_hall_state).rpm_history)) := by
  have hinit : hall_invariant initial_hall_state := by
    refine ⟨?_, ?_, ?_, ?_⟩
    · intro x hx
      simp [initial_hall_state] at hx
    · norm_num [initial_hall_state]
    · norm_num [initial_hall_state, DEFAULT_RPM, MIN_RPM]
    · norm_num [initial_hall_state, DEFAULT_RPM, MAX_RPM]
  have hfold : ∀ (l : List Int) (s : HallState), hall_invariant s →
      hall_invariant (l.foldl check_hall_pulse s) := by
    intro l
    induction l with
    | nil => exact fun s hs => hs
    | cons a l ih => exact fun s hs => ih _ (check_hall_pulse_preserves_invariant s a hs)
  have h := hfold events initial_hall_state hinit
  refine ⟨h, ?_, ?_⟩
  · have hb := h.2.2.1
    have : (0 : ℚ) < ((MIN_RPM : Int) : ℚ) := by norm_num [MIN_RPM]
    linarith
  · intro hne
    have hne2 : (events.foldl check_hall_pulse initial_hall_state).rpm_history ≠ [] := by
      intro hc
      rw [hc] at hne
      simp at hne
    have hge := le_sum_div_length _ ((MIN_RPM : Int) : ℚ) hne2 (fun x hx => (h.1 x hx).1)
    have : (0 : ℚ) < ((MIN_RPM : Int) : ℚ) := by norm_num [MIN_RPM]
    rw [history_mean]
    linarith

theorem finish_pulse_more_fields (s : HallState) (t : Int) :
    (finish_pulse s t).last_hall_trigger_time = s.last_hall_trigger_time ∧
    (finish_pulse s t).last_rotation_micros = t ∧
    (finish_pulse s t).rpm_history = s.rpm_history := by
  unfold finish_pulse
  split <;> exact ⟨rfl, rfl, rfl⟩

/-- C10, witness: after the two pulses at 10000µs and 130000µs (the
second completing a valid 120000µs rotation) the history is nonempty
and its mean is strictly positive. -/
theorem rpm_state_invariant_witness :
    1 ≤ (([10000, 130000] : List Int).foldl check_hall_pulse
      initial_hall_state).rpm_history.length ∧
    0 < history_mean ((([10000, 130000] : List Int).foldl check_hall_pulse
      initial_hall_state).rpm_history) := by
  have hfold : ([10000, 130000] : List Int).foldl check_hall_pulse initial_hall_state =
      check_hall_pulse (check_hall_pulse initial_hall_state 10000) 130000 := rfl
  have e1 : check_hall_pulse initial_hall_state 10000 =
      finish_pulse
        { initial_hall_state with
            last_hall_trigger_time := 10000
            rotation_end_flag := true }
        10000 := by
    rw [check_hall_pulse, if_neg (by norm_num [initial_hall_state, HALL_DEBOUNCE_US])]
    simp only
    rw [if_neg (by norm_num [initial_hall_state])]
  have hlt : (check_hall_pulse initial_hall_state 10000).last_hall_trigger_time = 10000 := by
    rw [e1, (finish_pulse_more_fields _ _).1]
  have hlr : (check_hall_pulse initial_hall_state 10000).last_rotation_micros = 10000 := by
    rw [e1, (finish_pulse_more_fields _ _).2.1]
  have hhist : (check_hall_pulse initial_hall_state 10000).rpm_history = [] := by
    rw [e1, (finish_pulse_more_fields _ _).2.2]
    rfl
  have e2len : (check_hall_pulse (check_hall_pulse initial_hall_state 10000) 130000).rpm_history =
      [instant_rpm_of (130000 -
        (check_hall_pulse initial_hall_state 10000).last_rotation_micros)] := by
    rw [check_hall_pulse, if_neg (by rw [hlt]; norm_num [HALL_DEBOUNCE_US])]
    simp only
    rw [if_pos (by simpa using (show (0 : Int) <
        (check_hall_pulse initial_hall_state 10000).last_rotation_micros by
      rw [hlr]; norm_num))]
    rw [if_neg (by simpa using (show min_rotation_time ≤ 130000 -
        (check_hall_pulse initial_hall_state 10000).last_rotation_micros ∧
        130000 - (check_hall_pulse initial_hall_state 10000).last_rotation_micros ≤
          max_rotation_time by
      rw [hlr, min_rotation_time_eq, max_rotation_time_eq]; norm_num))]
    rw [if_neg (by simpa using (show ¬(3 ≤
        (check_hall_pulse initial_hall_state 10000).rpm_history.length ∧
        MAX_RPM_CHANGE_PERCENT <
          |instant_rpm_of (130000 -
              (check_hall_pulse initial_hall_state 10000).last_rotation_micros) -
            history_mean ((check_hall_pulse initial_hall_state 10000).rpm_history)| /
            history_mean ((check_hall_pulse initial_hall_state 10000).rpm_history) * 100) by
      rintro ⟨h3, -⟩
      rw [hhist] at h3
      simp at h3))]
    rw [(finish_pulse_fields _ _).2.1]
    norm_num [RPM_HISTORY_SIZE, hhist]
  have hlen1 : 1 ≤ (([10000, 130000] : List Int).foldl check_hall_pulse
      initial_hall_state).rpm_history.length := by
    rw [hfold, e2len]
    norm_num
  exact ⟨hlen1, (rpm_state_invariant [10000, 130000]).2.2 hlen1⟩
